import Mathlib

/-!
Verification of `networks/unet_ae.py`: a 2D U-Net convolutional autoencoder
with a domain-adversarial classifier behind a gradient-reversal layer.

Shallow embedding conventions:
* A tensor is its leading (batch) dimension together with its flattened
  numeric contents, over `ℚ` (the code's float arithmetic, modelled exactly).
* The learned layers (convolution blocks, pooling, transposed convolution,
  the domain classifier's CNN body, the loss functions) are opaque parameters
  of the model: the claims under scrutiny concern the wiring of the network
  and of the training loop, not the numeric kernels supplied by the tensor
  library.
* Python exceptions (IndexError from `tar_data[i]`, ZeroDivisionError from
  the `/ cnt` average over an empty loader) are modelled by `Option`: `none`
  is an uncaught exception.
* In-place mutation (`encoder_outputs.reverse()`) is modelled by returning
  the post-call state of the mutated list as an extra result component.
-/

/-- A dense tensor: `size0` is the size of the leading (batch) dimension,
`data` the flattened contents. -/
structure Tensor where
  size0 : ℕ
  data : List ℚ
deriving DecidableEq

/-- `x.view_as(other)`: same data as `x`, shape taken from `other`. -/
def Tensor.view_as (x other : Tensor) : Tensor :=
  { size0 := other.size0, data := x.data }

/-- `t.neg()`: elementwise negation. -/
def Tensor.neg (t : Tensor) : Tensor :=
  { size0 := t.size0, data := t.data.map (fun v => -v) }

/-- `torch.cat((a, b), dim=0)`: concatenation along the leading dimension. -/
def Tensor.cat (a b : Tensor) : Tensor :=
  { size0 := a.size0 + b.size0, data := a.data ++ b.data }

/-- `ReverseLayerF.forward(ctx, x)`: returns `x.view_as(x)`. -/
def ReverseLayerF.forward (x : Tensor) : Tensor :=
  x.view_as x

/-- `ReverseLayerF.backward(ctx, grad_output)`: returns the pair
`(grad_output.neg(), None)`. -/
def ReverseLayerF.backward (grad_output : Tensor) : Tensor × Option Tensor :=
  (grad_output.neg, none)

/-- `ReverseLayerF.apply(x)` invokes the forward pass. -/
def ReverseLayerF.apply (x : Tensor) : Tensor :=
  ReverseLayerF.forward x

/-- `UNetEncoder`: `levels` convolution blocks each followed by max-pooling,
then a center block.  The learned blocks are opaque functions, indexed by the
0-based loop variable `i` of `__init__`/`forward` (the module names use
`i + 1`). -/
structure UNetEncoder where
  levels : ℕ
  convblock : ℕ → Tensor → Tensor
  pool : ℕ → Tensor → Tensor
  center_conv : Tensor → Tensor

/-- The encoder's `for i in range(self.levels)` loop, starting at level `i`
with `n` levels remaining: applies `convblock i`, records the result for the
skip connections, pools, and recurses.  Returns the recorded
`encoder_outputs` and the final pooled tensor. -/
def UNetEncoder.forwardFrom (enc : UNetEncoder) : ℕ → ℕ → Tensor → List Tensor × Tensor
  | _, 0, outputs => ([], outputs)
  | i, n + 1, outputs =>
    let o1 := enc.convblock i outputs
    let o2 := enc.pool i o1
    let rest := enc.forwardFrom (i + 1) n o2
    (o1 :: rest.1, rest.2)

/-- `UNetEncoder.forward`: runs the level loop, applies the center block, and
passes the center output through `ReverseLayerF.apply`.  Returns
`(encoder_outputs, outputs, reverse_outputs)`. -/
def UNetEncoder.forward (enc : UNetEncoder) (inputs : Tensor) :
    List Tensor × Tensor × Tensor :=
  let r := enc.forwardFrom 0 enc.levels inputs
  let outputs := enc.center_conv r.2
  let reverse_outputs := ReverseLayerF.apply outputs
  (r.1, outputs, reverse_outputs)

/-- `UNetDecoder`: `levels` upsampling blocks each followed by a convolution
block, then an output convolution.  `upconv` is the one-argument call of
`UNetUpSamplingBlock2D` (plain deconvolution); the blocks are opaque
functions indexed by the 0-based loop variable. -/
structure UNetDecoder where
  levels : ℕ
  skip_connections : Bool
  upconv : ℕ → Tensor → Tensor
  convblock : ℕ → Tensor → Tensor
  output : Tensor → Tensor

/-- Modelled from the spec: `UNetUpSamplingBlock2D` lives in
`networks/blocks.py`, which is not among the sources.  Per the spec's U-Net
glossary entry ("convolutional encoder-decoder architecture with skip
connections"), the two-argument call concatenates the stored encoder output
with the upsampled decoder features ("also deals with concat" in the
caller's comment). -/
def UNetDecoder.upconv2 (dec : UNetDecoder) (i : ℕ) (skip outputs : Tensor) : Tensor :=
  Tensor.cat skip (dec.upconv i outputs)

/-- The decoder's `for i in range(self.levels)` loop over the (already
reversed) `encoder_outputs` list `rev_eo`, at level `i` with `n` levels
remaining.  With skip connections it indexes `rev_eo[i]` (`none` models the
IndexError if the list is too short); without, it applies the plain
upsampling block.  Returns the recorded `decoder_outputs` and the final
tensor. -/
def UNetDecoder.forwardLoop (dec : UNetDecoder) (rev_eo : List Tensor) :
    ℕ → ℕ → Tensor → Option (List Tensor × Tensor)
  | _, 0, outputs => some ([], outputs)
  | i, n + 1, outputs => do
    let o1 ←
      if dec.skip_connections then do
        let e ← rev_eo.get? i
        pure (dec.upconv2 i e outputs)
      else
        pure (dec.upconv i outputs)
    let o2 := dec.convblock i o1
    let rest ← dec.forwardLoop rev_eo (i + 1) n o2
    pure (o2 :: rest.1, rest.2)

/-- `UNetDecoder.forward(inputs, encoder_outputs)`: reverses
`encoder_outputs` in place, runs the level loop, and applies the output
convolution.  Returns `(decoder_outputs, outputs, post_encoder_outputs)`
where the third component is the caller-visible state of the
`encoder_outputs` list after the call (the in-place `reverse()`). -/
def UNetDecoder.forward (dec : UNetDecoder) (inputs : Tensor)
    (encoder_outputs : List Tensor) :
    Option (List Tensor × Tensor × List Tensor) := do
  let rev := encoder_outputs.reverse
  let r ← dec.forwardLoop rev 0 dec.levels inputs
  pure (r.1, dec.output r.2, rev)

/-- Modelled from the spec: the `CNN` class lives in `networks/cnn.py`,
which is not among the sources.  Per the spec it is the "auxiliary network
predicting which source distribution (domain) an input came from": a stack
of convolutional layers (`conv_channels`) followed by fully-connected layers
(`fc_channels`, the last entry being the number of output classes), whose
learned body is the opaque function `run`. -/
structure CNN where
  input_size : ℕ × ℕ × ℕ
  conv_channels : List ℕ
  fc_channels : List ℕ
  run : Tensor → Tensor

/-- The `UNetAE` model: encoder, decoder and domain classifier plus the
hyperparameters stored by `__init__`. -/
structure UNetAE where
  in_channels : ℕ
  out_channels : ℕ
  feature_maps : ℕ
  levels : ℕ
  lambda_rec : ℚ
  encoder : UNetEncoder
  decoder : UNetDecoder
  domain_classifier : CNN

/-- The opaque learned kernels behind the model's layers, fixed at
construction time (the numeric content of the `nn.Module` parameters). -/
structure BlockParams where
  enc_conv : ℕ → Tensor → Tensor
  enc_pool : ℕ → Tensor → Tensor
  center : Tensor → Tensor
  dec_upconv : ℕ → Tensor → Tensor
  dec_conv : ℕ → Tensor → Tensor
  dec_out : Tensor → Tensor
  dom_run : Tensor → Tensor

/-- `UNetAE.__init__(in_channels, out_channels, feature_maps, levels,
group_norm, lambda_rec, s)` (defaults `in_channels=1`, `out_channels=1`,
`feature_maps=64`, `levels=4`, `lambda_rec=0`, `s=128`): builds the encoder,
a decoder constructed with `skip_connections=False`, and the domain
classifier `CNN(input_size=(fm, n, n), conv_channels=[48,48,48],
fc_channels=[48,24,2])` with `n = s // 2**levels` and
`fm = feature_maps * 2**levels`. -/
def UNetAE.init (in_channels out_channels feature_maps levels : ℕ)
    (lambda_rec : ℚ) (s : ℕ) (p : BlockParams) : UNetAE :=
  { in_channels := in_channels
    out_channels := out_channels
    feature_maps := feature_maps
    levels := levels
    lambda_rec := lambda_rec
    encoder :=
      { levels := levels
        convblock := p.enc_conv
        pool := p.enc_pool
        center_conv := p.center }
    decoder :=
      { levels := levels
        skip_connections := false
        upconv := p.dec_upconv
        convblock := p.dec_conv
        output := p.dec_out }
    domain_classifier :=
      { input_size := (feature_maps * 2 ^ levels, s / 2 ^ levels, s / 2 ^ levels)
        conv_channels := [48, 48, 48]
        fc_channels := [48, 24, 2]
        run := p.dom_run } }

/-- `UNetAE.forward(inputs)`: runs the encoder, applies the domain
classifier to `reverse_outputs`, runs the decoder on the center output with
the stored encoder outputs, and returns `(outputs, domain)`. -/
def UNetAE.forward (m : UNetAE) (inputs : Tensor) : Option (Tensor × Tensor) := do
  let enc := m.encoder.forward inputs
  let domain := m.domain_classifier.run enc.2.2
  let dec ← m.decoder.forward enc.2.1 enc.1
  pure (dec.2.1, domain)

/-- `optim.Adam(self.parameters(), lr=lr)` together with `optimizer.step()`:
a step updates only the network parameters registered through
`self.parameters()`; the plain attribute `lambda_rec` and the decoder's
`skip_connections` flag are structural Python attributes, untouched by the
optimizer. -/
structure Optimizer where
  step : UNetAE → UNetAE
  lambda_fixed : ∀ m, (step m).lambda_rec = m.lambda_rec
  skip_fixed : ∀ m, (step m).decoder.skip_connections = m.decoder.skip_connections

/-- The three scalar losses recorded in one iteration of the epoch loops. -/
structure IterResult where
  loss_rec : ℚ
  loss_dom : ℚ
  loss : ℚ
deriving DecidableEq

/-- One iteration of the loss computation shared verbatim by `train_epoch`
and `test_epoch`: concatenate the source and target batches into `x`, build
the domain-label vector (zeros for the source batch, ones for the target
batch, in that order), run the forward pass, and compute
`loss_rec = loss_fn(y_pred, x)`, `loss_dom = loss_dom_fn(dom_pred, dom)` and
`loss = loss_rec + lambda_rec * loss_dom`.  `loss_dom_fn` models the
`nn.CrossEntropyLoss()` instance, kept opaque (it is a library kernel over
floats). -/
def UNetAE.trainIter (m : UNetAE) (loss_fn : Tensor → Tensor → ℚ)
    (loss_dom_fn : Tensor → List ℕ → ℚ) (x_src x_tar : Tensor) :
    Option IterResult := do
  let x := Tensor.cat x_src x_tar
  let dom := List.replicate x_src.size0 0 ++ List.replicate x_tar.size0 1
  let fw ← m.forward x
  let loss_rec := loss_fn fw.1 x
  let loss_dom := loss_dom_fn fw.2 dom
  pure { loss_rec := loss_rec, loss_dom := loss_dom,
         loss := loss_rec + m.lambda_rec * loss_dom }

/-- The `for i, data in enumerate(src_loader)` loop of `train_epoch` over
the remaining source batches, with `i` the current index into the
materialized `tar_data` list: `none` models the IndexError when
`tar_data[i]` does not exist.  After each iteration `optimizer.step()`
updates the model, so iteration `i + 1` runs on the stepped model. -/
def UNetAE.trainLoop (opt : Optimizer) (loss_fn : Tensor → Tensor → ℚ)
    (loss_dom_fn : Tensor → List ℕ → ℚ) (tar_data : List Tensor) :
    UNetAE → List Tensor → ℕ → Option (List IterResult)
  | _, [], _ => some []
  | m, data :: rest, i => do
    let x_tar ← tar_data.get? i
    let r ← m.trainIter loss_fn loss_dom_fn data x_tar
    let rs ← UNetAE.trainLoop opt loss_fn loss_dom_fn tar_data (opt.step m) rest (i + 1)
    pure (r :: rs)

/-- `UNetAE.train_epoch(src_loader, tar_loader, loss_fn, optimizer, ...)`:
runs the iteration loop over the source batches and returns
`loss_avg = loss_cum / cnt` with `cnt` the number of iterations (`none`
models the ZeroDivisionError when the source loader is empty). -/
def UNetAE.train_epoch (m : UNetAE) (opt : Optimizer)
    (loss_fn : Tensor → Tensor → ℚ) (loss_dom_fn : Tensor → List ℕ → ℚ)
    (src_loader tar_data : List Tensor) : Option ℚ := do
  let rs ← m.trainLoop opt loss_fn loss_dom_fn tar_data src_loader 0
  if rs.length = 0 then none
  else pure ((rs.map IterResult.loss).sum / (rs.length : ℚ))

/-- The `for i, data in enumerate(src_loader)` loop of `test_epoch`: the
per-iteration loss computation is the same code as in `train_epoch`, but
there is no backward pass and no optimizer step, so the model is fixed. -/
def UNetAE.testLoop (m : UNetAE) (loss_fn : Tensor → Tensor → ℚ)
    (loss_dom_fn : Tensor → List ℕ → ℚ) (tar_data : List Tensor) :
    List Tensor → ℕ → Option (List IterResult)
  | [], _ => some []
  | data :: rest, i => do
    let x_tar ← tar_data.get? i
    let r ← m.trainIter loss_fn loss_dom_fn data x_tar
    let rs ← m.testLoop loss_fn loss_dom_fn tar_data rest (i + 1)
    pure (r :: rs)

/-- `UNetAE.test_epoch(src_loader, tar_loader, loss_fn, ...)`: the test-time
analogue of `train_epoch`, returning the average total loss over the
iterations. -/
def UNetAE.test_epoch (m : UNetAE) (loss_fn : Tensor → Tensor → ℚ)
    (loss_dom_fn : Tensor → List ℕ → ℚ)
    (src_loader tar_data : List Tensor) : Option ℚ := do
  let rs ← m.testLoop loss_fn loss_dom_fn tar_data src_loader 0
  if rs.length = 0 then none
  else pure ((rs.map IterResult.loss).sum / (rs.length : ℚ))

/-- The observable actions of one epoch of `train_net`, in program order. -/
inductive Event where
  | trainEp : Event
  | schedStep : Event
  | testEp : ℚ → Event
  | saveBest : Event
  | saveCkpt : Event
deriving DecidableEq

/-- `test_loss < test_loss_min` where `none` stands for the initial
`np.inf`. -/
def belowMin (best : Option ℚ) (t : ℚ) : Bool :=
  match best with
  | none => true
  | some b => decide (t < b)

/-- One epoch of the `train_net` loop body: train, step the scheduler
(constructed unconditionally, so never `None`), run `test_epoch` when
`epoch % test_freq == 0`, save the best checkpoint when the new test loss
beats `test_loss_min` (updating it), and save the regular checkpoint.
`test_loss` gives the value returned by `test_epoch` at each epoch (opaque:
it depends on the trained weights).  Returns the epoch's events in program
order and the updated `test_loss_min`. -/
def epochEvents (test_freq : ℕ) (test_loss : ℕ → ℚ) (epoch : ℕ)
    (best : Option ℚ) : List Event × Option ℚ :=
  let base := [Event.trainEp, Event.schedStep]
  if epoch % test_freq = 0 then
    let t := test_loss epoch
    if belowMin best t then
      (base ++ [Event.testEp t, Event.saveBest, Event.saveCkpt], some t)
    else
      (base ++ [Event.testEp t, Event.saveCkpt], best)
  else
    (base ++ [Event.saveCkpt], best)

/-- The `for epoch in range(epochs)` loop of `train_net`, from `epoch` with
`n` epochs remaining, carrying `test_loss_min`. -/
def trainNetFrom (test_freq : ℕ) (test_loss : ℕ → ℚ) :
    ℕ → ℕ → Option ℚ → List (List Event)
  | _, 0, _ => []
  | epoch, n + 1, best =>
    let r := epochEvents test_freq test_loss epoch best
    r.1 :: trainNetFrom test_freq test_loss (epoch + 1) n r.2

/-- `UNetAE.train_net(..., epochs, test_freq, ...)`: the epoch loop starting
from epoch 0 with `test_loss_min = np.inf`, returning the per-epoch event
lists. -/
def train_net (epochs test_freq : ℕ) (test_loss : ℕ → ℚ) : List (List Event) :=
  trainNetFrom test_freq test_loss 0 epochs none

/-- Identity kernels: a concrete instantiation of the opaque learned layers,
used to evaluate the model on concrete inputs. -/
def idParams : BlockParams :=
  { enc_conv := fun _ t => t
    enc_pool := fun _ t => t
    center := fun t => t
    dec_upconv := fun _ t => t
    dec_conv := fun _ t => t
    dec_out := fun t => t
    dom_run := fun t => t }

/-- A small concrete model: one level, identity kernels, `lambda_rec = 0`
(the constructor's default). -/
def m0 : UNetAE := UNetAE.init 1 1 1 1 0 2 idParams

/-- A concrete optimizer whose step leaves the model unchanged. -/
def opt0 : Optimizer :=
  { step := id
    lambda_fixed := fun _ => rfl
    skip_fixed := fun _ => rfl }

/-- A concrete reconstruction loss function for evaluation. -/
def lf0 : Tensor → Tensor → ℚ := fun _ _ => 1

/-- A concrete domain (cross-entropy) loss function for evaluation. -/
def ldf0 : Tensor → List ℕ → ℚ := fun _ _ => 2

/-- A concrete one-batch source loader. -/
def src0 : List Tensor := [{ size0 := 1, data := [3] }]

/-- A concrete one-batch target loader. -/
def tar0 : List Tensor := [{ size0 := 1, data := [4] }]

/-- `t` is strictly below the test loss of every already-tested epoch
`e' < e` (those with `e' % test_freq = 0`). -/
def testedBelow (tf : ℕ) (tl : ℕ → ℚ) (e : ℕ) (t : ℚ) : Prop :=
  ∀ e', e' < e → e' % tf = 0 → t < tl e'

instance (tf : ℕ) (tl : ℕ → ℚ) (e : ℕ) (t : ℚ) :
    Decidable (testedBelow tf tl e t) := by
  unfold testedBelow
  infer_instance

/-- With `skip_connections = False`, the decoder's level loop never reads
the encoder outputs: its result is the same for any `rev_eo`, and it always
succeeds. -/
theorem UNetDecoder.forwardLoop_noskip (dec : UNetDecoder)
    (h : dec.skip_connections = false) :
    ∀ (n i : ℕ) (out : Tensor) (eo eo' : List Tensor),
      dec.forwardLoop eo i n out = dec.forwardLoop eo' i n out ∧
      (dec.forwardLoop eo i n out).isSome := by
  intro n
  induction n with
  | zero =>
    intro i out eo eo'
    exact ⟨rfl, rfl⟩
  | succ n ih =>
    intro i out eo eo'
    have h1 := ih (i + 1) (dec.convblock i (dec.upconv i out)) eo eo'
    constructor
    · simp only [UNetDecoder.forwardLoop, h, Bool.false_eq_true, if_false,
        Option.pure_def, Option.bind_eq_bind, Option.some_bind]
      rw [h1.1]
    · simp only [UNetDecoder.forwardLoop, h, Bool.false_eq_true, if_false,
        Option.pure_def, Option.bind_eq_bind, Option.some_bind]
      obtain ⟨v, hv⟩ := Option.isSome_iff_exists.mp (ih (i + 1) (dec.convblock i (dec.upconv i out)) eo eo).2
      rw [hv]
      rfl

/-- With `skip_connections = False`, `UNetDecoder.forward` always succeeds,
and its `decoder_outputs` and `outputs` components do not depend on the
`encoder_outputs` argument. -/
theorem UNetDecoder.forward_noskip (dec : UNetDecoder)
    (h : dec.skip_connections = false) (inputs : Tensor) (eo eo' : List Tensor) :
    (dec.forward inputs eo).isSome = true ∧
    (dec.forward inputs eo).map (fun r => (r.1, r.2.1)) =
      (dec.forward inputs eo').map (fun r => (r.1, r.2.1)) := by
  have h1 := dec.forwardLoop_noskip h dec.levels 0 inputs eo.reverse eo'.reverse
  obtain ⟨v, hv⟩ := Option.isSome_iff_exists.mp h1.2
  have hv' : dec.forwardLoop eo'.reverse 0 dec.levels inputs = some v := by
    rw [← h1.1]
    exact hv
  constructor
  · simp [UNetDecoder.forward, hv]
  · simp [UNetDecoder.forward, hv, hv']

/-- With a no-skip decoder, `UNetAE.forward` always succeeds and its domain
component is the classifier applied to the encoder's `reverse_outputs`. -/
theorem UNetAE.forward_eq (m : UNetAE) (h : m.decoder.skip_connections = false)
    (x : Tensor) :
    ∃ y, m.forward x = some (y, m.domain_classifier.run (m.encoder.forward x).2.2) := by
  have h1 := m.decoder.forward_noskip h (m.encoder.forward x).2.1 (m.encoder.forward x).1 []
  obtain ⟨r, hr⟩ := Option.isSome_iff_exists.mp h1.1
  refine ⟨r.2.1, ?_⟩
  simp [UNetAE.forward, hr]

/-- With a no-skip decoder, one loss iteration always succeeds. -/
theorem UNetAE.trainIter_isSome (m : UNetAE)
    (h : m.decoder.skip_connections = false) (lf : Tensor → Tensor → ℚ)
    (ldf : Tensor → List ℕ → ℚ) (x_src x_tar : Tensor) :
    (m.trainIter lf ldf x_src x_tar).isSome = true := by
  obtain ⟨y, hy⟩ := m.forward_eq h (Tensor.cat x_src x_tar)
  simp [UNetAE.trainIter, hy]

/-- Inversion for one loss iteration: the three recorded scalars. -/
theorem UNetAE.trainIter_spec (m : UNetAE) (lf : Tensor → Tensor → ℚ)
    (ldf : Tensor → List ℕ → ℚ) (x_src x_tar : Tensor) (r : IterResult)
    (hr : m.trainIter lf ldf x_src x_tar = some r) :
    ∃ fw, m.forward (Tensor.cat x_src x_tar) = some fw ∧
      r.loss_rec = lf fw.1 (Tensor.cat x_src x_tar) ∧
      r.loss_dom = ldf fw.2
        (List.replicate x_src.size0 0 ++ List.replicate x_tar.size0 1) ∧
      r.loss = r.loss_rec + m.lambda_rec * r.loss_dom := by
  cases hfw : m.forward (Tensor.cat x_src x_tar) with
  | none =>
    rw [UNetAE.trainIter, hfw] at hr
    simp at hr
  | some fw =>
    rw [UNetAE.trainIter, hfw] at hr
    simp at hr
    exact ⟨fw, rfl, by rw [← hr], by rw [← hr], by rw [← hr]⟩

/-- `optimizer.step` iterated any number of times leaves `lambda_rec`
unchanged. -/
theorem Optimizer.iterate_lambda (opt : Optimizer) :
    ∀ (j : ℕ) (m : UNetAE), ((opt.step)^[j] m).lambda_rec = m.lambda_rec := by
  intro j
  induction j with
  | zero => intro m; rfl
  | succ j ih =>
    intro m
    rw [Function.iterate_succ_apply, ih (opt.step m), opt.lambda_fixed m]

/-- `optimizer.step` iterated any number of times leaves the decoder's
`skip_connections` flag unchanged. -/
theorem Optimizer.iterate_skip (opt : Optimizer) :
    ∀ (j : ℕ) (m : UNetAE),
      ((opt.step)^[j] m).decoder.skip_connections = m.decoder.skip_connections := by
  intro j
  induction j with
  | zero => intro m; rfl
  | succ j ih =>
    intro m
    rw [Function.iterate_succ_apply, ih (opt.step m), opt.skip_fixed m]

/-- Inversion for the `train_epoch` iteration loop: there is one result per
source batch, and the `j`-th result is the loss iteration of the `j`-th
source batch against the `(i + j)`-th target batch, on the `j`-times stepped
model. -/
theorem UNetAE.trainLoop_spec (opt : Optimizer) (lf : Tensor → Tensor → ℚ)
    (ldf : Tensor → List ℕ → ℚ) (tar : List Tensor) :
    ∀ (src : List Tensor) (m : UNetAE) (i : ℕ) (rs : List IterResult),
      UNetAE.trainLoop opt lf ldf tar m src i = some rs →
      rs.length = src.length ∧
      ∀ j, j < src.length →
        ∃ d x_tar r, src.get? j = some d ∧ tar.get? (i + j) = some x_tar ∧
          rs.get? j = some r ∧
          ((opt.step)^[j] m).trainIter lf ldf d x_tar = some r := by
  intro src
  induction src with
  | nil =>
    intro m i rs h
    rw [UNetAE.trainLoop] at h
    cases h
    exact ⟨rfl, fun j hj => absurd hj (Nat.not_lt_zero j)⟩
  | cons d rest ih =>
    intro m i rs h
    rw [UNetAE.trainLoop] at h
    cases ht : tar.get? i with
    | none => rw [ht] at h; simp at h
    | some x_tar =>
      rw [ht] at h
      simp only [Option.bind_eq_bind, Option.some_bind] at h
      cases hit : m.trainIter lf ldf d x_tar with
      | none => rw [hit] at h; simp at h
      | some r =>
        rw [hit] at h
        simp only [Option.some_bind] at h
        cases hrec : UNetAE.trainLoop opt lf ldf tar (opt.step m) rest (i + 1) with
        | none => rw [hrec] at h; simp at h
        | some rs' =>
          rw [hrec] at h
          simp at h
          obtain ⟨hlen, hget⟩ := ih (opt.step m) (i + 1) rs' hrec
          subst h
          constructor
          · simp [hlen]
          · intro j hj
            cases j with
            | zero =>
              exact ⟨d, x_tar, r, rfl, by simpa using ht, rfl, hit⟩
            | succ j =>
              obtain ⟨d', x_tar', r', h1, h2, h3, h4⟩ :=
                hget j (by simpa using hj)
              refine ⟨d', x_tar', r', h1, ?_, h3, ?_⟩
              · rw [show i + (j + 1) = i + 1 + j by omega]
                exact h2
              · rw [Function.iterate_succ_apply]
                exact h4

/-- Inversion for the `test_epoch` iteration loop (fixed model). -/
theorem UNetAE.testLoop_spec (lf : Tensor → Tensor → ℚ)
    (ldf : Tensor → List ℕ → ℚ) (tar : List Tensor) (m : UNetAE) :
    ∀ (src : List Tensor) (i : ℕ) (rs : List IterResult),
      m.testLoop lf ldf tar src i = some rs →
      rs.length = src.length ∧
      ∀ j, j < src.length →
        ∃ d x_tar r, src.get? j = some d ∧ tar.get? (i + j) = some x_tar ∧
          rs.get? j = some r ∧
          m.trainIter lf ldf d x_tar = some r := by
  intro src
  induction src with
  | nil =>
    intro i rs h
    rw [UNetAE.testLoop] at h
    cases h
    exact ⟨rfl, fun j hj => absurd hj (Nat.not_lt_zero j)⟩
  | cons d rest ih =>
    intro i rs h
    rw [UNetAE.testLoop] at h
    cases ht : tar.get? i with
    | none => rw [ht] at h; simp at h
    | some x_tar =>
      rw [ht] at h
      simp only [Option.bind_eq_bind, Option.some_bind] at h
      cases hit : m.trainIter lf ldf d x_tar with
      | none => rw [hit] at h; simp at h
      | some r =>
        rw [hit] at h
        simp only [Option.some_bind] at h
        cases hrec : m.testLoop lf ldf tar rest (i + 1) with
        | none => rw [hrec] at h; simp at h
        | some rs' =>
          rw [hrec] at h
          simp at h
          obtain ⟨hlen, hget⟩ := ih (i + 1) rs' hrec
          subst h
          constructor
          · simp [hlen]
          · intro j hj
            cases j with
            | zero =>
              exact ⟨d, x_tar, r, rfl, by simpa using ht, rfl, hit⟩
            | succ j =>
              obtain ⟨d', x_tar', r', h1, h2, h3, h4⟩ :=
                hget j (by simpa using hj)
              refine ⟨d', x_tar', r', h1, ?_, h3, h4⟩
              rw [show i + (j + 1) = i + 1 + j by omega]
              exact h2

/-- Bounded-quantifier arithmetic: every index below `a` is below `b` iff
`a ≤ b`. -/
theorem forall_lt_imp_lt_iff_le (a b : ℕ) : (∀ j, j < a → j < b) ↔ a ≤ b := by
  constructor
  · intro h
    rcases Nat.eq_zero_or_pos a with h0 | h0
    · omega
    · have := h (a - 1) (by omega)
      omega
  · intro h j hj
    omega

/-- With a no-skip decoder, the `train_epoch` loop succeeds exactly when the
materialized target list is long enough for every source-batch index. -/
theorem UNetAE.trainLoop_isSome_iff (opt : Optimizer) (lf : Tensor → Tensor → ℚ)
    (ldf : Tensor → List ℕ → ℚ) (tar : List Tensor) :
    ∀ (src : List Tensor) (m : UNetAE) (i : ℕ),
      m.decoder.skip_connections = false →
      ((UNetAE.trainLoop opt lf ldf tar m src i).isSome = true ↔
        ∀ j, j < src.length → i + j < tar.length) := by
  intro src
  induction src with
  | nil =>
    intro m i hskip
    simp [UNetAE.trainLoop]
  | cons d rest ih =>
    intro m i hskip
    rw [UNetAE.trainLoop]
    constructor
    · intro h
      cases ht : tar.get? i with
      | none => rw [ht] at h; simp at h
      | some x_tar =>
        rw [ht] at h
        simp only [Option.bind_eq_bind, Option.some_bind] at h
        cases hit : m.trainIter lf ldf d x_tar with
        | none => rw [hit] at h; simp at h
        | some r =>
          rw [hit] at h
          simp only [Option.some_bind] at h
          cases hrec : UNetAE.trainLoop opt lf ldf tar (opt.step m) rest (i + 1) with
          | none => rw [hrec] at h; simp at h
          | some rs' =>
            have hrest := (ih (opt.step m) (i + 1)
              (by rw [opt.skip_fixed]; exact hskip)).mp (by rw [hrec]; rfl)
            have hi : i < tar.length := by
              by_contra hge
              rw [List.get?_eq_none.mpr (by omega)] at ht
              cases ht
            intro j hj
            cases j with
            | zero => omega
            | succ j =>
              have := hrest j (by simpa using hj)
              omega
    · intro h
      have hi : i < tar.length := by have := h 0 (by simp); omega
      obtain ⟨x_tar, ht⟩ : ∃ x, tar.get? i = some x :=
        ⟨tar.get ⟨i, by omega⟩, List.get?_eq_get (by omega)⟩
      rw [ht]
      simp only [Option.bind_eq_bind, Option.some_bind]
      obtain ⟨r, hit⟩ := Option.isSome_iff_exists.mp
        (m.trainIter_isSome hskip lf ldf d x_tar)
      rw [hit]
      simp only [Option.some_bind]
      have hrest := (ih (opt.step m) (i + 1)
        (by rw [opt.skip_fixed]; exact hskip)).mpr
        (fun j hj => by have := h (j + 1) (by simpa using Nat.succ_lt_succ hj); omega)
      obtain ⟨rs', hrec⟩ := Option.isSome_iff_exists.mp hrest
      rw [hrec]
      rfl

/-- With a no-skip decoder, the `test_epoch` loop succeeds exactly when the
materialized target list is long enough for every source-batch index. -/
theorem UNetAE.testLoop_isSome_iff (lf : Tensor → Tensor → ℚ)
    (ldf : Tensor → List ℕ → ℚ) (tar : List Tensor) (m : UNetAE)
    (hskip : m.decoder.skip_connections = false) :
    ∀ (src : List Tensor) (i : ℕ),
      ((m.testLoop lf ldf tar src i).isSome = true ↔
        ∀ j, j < src.length → i + j < tar.length) := by
  intro src
  induction src with
  | nil =>
    intro i
    simp [UNetAE.testLoop]
  | cons d rest ih =>
    intro i
    rw [UNetAE.testLoop]
    constructor
    · intro h
      cases ht : tar.get? i with
      | none => rw [ht] at h; simp at h
      | some x_tar =>
        rw [ht] at h
        simp only [Option.bind_eq_bind, Option.some_bind] at h
        cases hit : m.trainIter lf ldf d x_tar with
        | none => rw [hit] at h; simp at h
        | some r =>
          rw [hit] at h
          simp only [Option.some_bind] at h
          cases hrec : m.testLoop lf ldf tar rest (i + 1) with
          | none => rw [hrec] at h; simp at h
          | some rs' =>
            have hrest := (ih (i + 1)).mp (by rw [hrec]; rfl)
            have hi : i < tar.length := by
              by_contra hge
              rw [List.get?_eq_none.mpr (by omega)] at ht
              cases ht
            intro j hj
            cases j with
            | zero => omega
            | succ j =>
              have := hrest j (by simpa using hj)
              omega
    · intro h
      have hi : i < tar.length := by have := h 0 (by simp); omega
      obtain ⟨x_tar, ht⟩ : ∃ x, tar.get? i = some x :=
        ⟨tar.get ⟨i, by omega⟩, List.get?_eq_get (by omega)⟩
      rw [ht]
      simp only [Option.bind_eq_bind, Option.some_bind]
      obtain ⟨r, hit⟩ := Option.isSome_iff_exists.mp
        (m.trainIter_isSome hskip lf ldf d x_tar)
      rw [hit]
      simp only [Option.some_bind]
      have hrest := (ih (i + 1)).mpr
        (fun j hj => by have := h (j + 1) (by simpa using Nat.succ_lt_succ hj); omega)
      obtain ⟨rs', hrec⟩ := Option.isSome_iff_exists.mp hrest
      rw [hrec]
      rfl

/-- `train_epoch` returns `loss_cum / cnt` over the iteration results. -/
theorem UNetAE.train_epoch_eq (m : UNetAE) (opt : Optimizer)
    (lf : Tensor → Tensor → ℚ) (ldf : Tensor → List ℕ → ℚ)
    (src tar : List Tensor) (rs : List IterResult)
    (h : UNetAE.trainLoop opt lf ldf tar m src 0 = some rs) (hne : rs ≠ []) :
    m.train_epoch opt lf ldf src tar =
      some ((rs.map IterResult.loss).sum / (rs.length : ℚ)) := by
  rw [UNetAE.train_epoch, h]
  simp only [Option.bind_eq_bind, Option.some_bind]
  rw [if_neg (fun h0 => hne (List.length_eq_zero.mp h0))]
  rfl

/-- `test_epoch` returns `loss_cum / cnt` over the iteration results. -/
theorem UNetAE.test_epoch_eq (m : UNetAE)
    (lf : Tensor → Tensor → ℚ) (ldf : Tensor → List ℕ → ℚ)
    (src tar : List Tensor) (rs : List IterResult)
    (h : m.testLoop lf ldf tar src 0 = some rs) (hne : rs ≠ []) :
    m.test_epoch lf ldf src tar =
      some ((rs.map IterResult.loss).sum / (rs.length : ℚ)) := by
  rw [UNetAE.test_epoch, h]
  simp only [Option.bind_eq_bind, Option.some_bind]
  rw [if_neg (fun h0 => hne (List.length_eq_zero.mp h0))]
  rfl

/-- Inversion for `train_epoch`: a returned average comes from a successful
iteration loop over a non-empty source loader. -/
theorem UNetAE.train_epoch_inv (m : UNetAE) (opt : Optimizer)
    (lf : Tensor → Tensor → ℚ) (ldf : Tensor → List ℕ → ℚ)
    (src tar : List Tensor) (L : ℚ)
    (h : m.train_epoch opt lf ldf src tar = some L) :
    ∃ rs, UNetAE.trainLoop opt lf ldf tar m src 0 = some rs ∧ rs ≠ [] ∧
      L = (rs.map IterResult.loss).sum / (rs.length : ℚ) := by
  rw [UNetAE.train_epoch] at h
  cases hl : UNetAE.trainLoop opt lf ldf tar m src 0 with
  | none => rw [hl] at h; simp at h
  | some rs =>
    rw [hl] at h
    simp only [Option.bind_eq_bind, Option.some_bind] at h
    by_cases h0 : rs.length = 0
    · rw [if_pos h0] at h
      cases h
    · rw [if_neg h0] at h
      refine ⟨rs, rfl, fun he => h0 (by rw [he]; rfl), ?_⟩
      cases h
      rfl

/-- Canonical form of one epoch's events, given that `test_loss_min`
characterizes the already-tested epochs below `start`. -/
theorem epochEvents_canon (tf : ℕ) (tl : ℕ → ℚ) (start : ℕ) (best : Option ℚ)
    (hbest : ∀ t, belowMin best t = true ↔ testedBelow tf tl start t) :
    (epochEvents tf tl start best).1 =
      [Event.trainEp, Event.schedStep] ++
        (if start % tf = 0 then [Event.testEp (tl start)] else []) ++
        (if start % tf = 0 ∧ testedBelow tf tl start (tl start)
          then [Event.saveBest] else []) ++
        [Event.saveCkpt] := by
  rw [epochEvents]
  by_cases h1 : start % tf = 0
  · rw [if_pos h1, if_pos h1]
    by_cases h2 : belowMin best (tl start) = true
    · rw [if_pos h2, if_pos ⟨h1, (hbest (tl start)).mp h2⟩]
      rfl
    · rw [if_neg h2, if_neg (fun hc => h2 ((hbest (tl start)).mpr hc.2))]
      rfl
  · rw [if_neg h1, if_neg h1, if_neg (fun hc => h1 hc.1)]
    rfl

/-- The updated `test_loss_min` after one epoch characterizes the
already-tested epochs below `start + 1`. -/
theorem epochEvents_best (tf : ℕ) (tl : ℕ → ℚ) (start : ℕ) (best : Option ℚ)
    (hbest : ∀ t, belowMin best t = true ↔ testedBelow tf tl start t) :
    ∀ t, belowMin (epochEvents tf tl start best).2 t = true ↔
      testedBelow tf tl (start + 1) t := by
  intro t
  rw [epochEvents]
  by_cases h1 : start % tf = 0
  · rw [if_pos h1]
    by_cases h2 : belowMin best (tl start) = true
    · rw [if_pos h2]
      have hprev := (hbest (tl start)).mp h2
      constructor
      · intro ht e' he' hm
        have ht' : t < tl start := by
          simpa [belowMin, decide_eq_true_iff] using ht
        rcases Nat.lt_succ_iff_lt_or_eq.mp he' with h | h
        · exact lt_trans ht' (hprev e' h hm)
        · rw [h]
          exact ht'
      · intro hall
        simp only [belowMin, decide_eq_true_iff]
        exact hall start (Nat.lt_succ_self start) h1
    · rw [if_neg h2]
      have hex : ∃ e0, e0 < start ∧ e0 % tf = 0 ∧ tl e0 ≤ tl start := by
        by_contra hc
        push_neg at hc
        exact h2 ((hbest (tl start)).mpr (fun e' he' hm => hc e' he' hm))
      obtain ⟨e0, he0, hm0, hle0⟩ := hex
      constructor
      · intro ht e' he' hm
        have hprev := (hbest t).mp ht
        rcases Nat.lt_succ_iff_lt_or_eq.mp he' with h | h
        · exact hprev e' h hm
        · rw [h]
          exact lt_of_lt_of_le (hprev e0 he0 hm0) hle0
      · intro hall
        exact (hbest t).mpr (fun e' he' hm => hall e' (Nat.lt_succ_of_lt he') hm)
  · rw [if_neg h1]
    constructor
    · intro ht e' he' hm
      rcases Nat.lt_succ_iff_lt_or_eq.mp he' with h | h
      · exact (hbest t).mp ht e' h hm
      · rw [h] at hm
        exact absurd hm h1
    · intro hall
      exact (hbest t).mpr (fun e' he' hm => hall e' (Nat.lt_succ_of_lt he') hm)

/-- Canonical form of every epoch of the `train_net` loop, given the
`test_loss_min` invariant at the starting epoch. -/
theorem trainNetFrom_canon (tf : ℕ) (tl : ℕ → ℚ) :
    ∀ (n start : ℕ) (best : Option ℚ),
      (∀ t, belowMin best t = true ↔ testedBelow tf tl start t) →
      (trainNetFrom tf tl start n best).length = n ∧
      ∀ k, k < n →
        (trainNetFrom tf tl start n best).get? k =
          some ([Event.trainEp, Event.schedStep] ++
            (if (start + k) % tf = 0 then [Event.testEp (tl (start + k))] else []) ++
            (if (start + k) % tf = 0 ∧
                testedBelow tf tl (start + k) (tl (start + k))
              then [Event.saveBest] else []) ++
            [Event.saveCkpt]) := by
  intro n
  induction n with
  | zero =>
    intro start best hbest
    exact ⟨rfl, fun k hk => absurd hk (Nat.not_lt_zero k)⟩
  | succ n ih =>
    intro start best hbest
    obtain ⟨hlen, hget⟩ := ih (start + 1) (epochEvents tf tl start best).2
      (epochEvents_best tf tl start best hbest)
    rw [trainNetFrom]
    constructor
    · simp [hlen]
    · intro k hk
      cases k with
      | zero =>
        simp only [List.get?]
        rw [epochEvents_canon tf tl start best hbest]
        rw [Nat.add_zero]
      | succ k =>
        simp only [List.get?]
        rw [hget k (by omega)]
        rw [show start + (k + 1) = start + 1 + k by omega]

/-- C1: `ReverseLayerF.forward` returns its input unchanged for every input
tensor (the gradient-reversal layer is the identity in the forward pass),
and consequently the reversed latent returned by the encoder — the tensor
handed to the domain classifier — equals the encoder's center-block
output. -/
theorem claim_C1_reverse_forward_identity :
    (∀ x : Tensor, ReverseLayerF.forward x = x) ∧
    (∀ (enc : UNetEncoder) (inputs : Tensor),
      (enc.forward inputs).2.2 = (enc.forward inputs).2.1) := by
  constructor
  · intro x
    rfl
  · intro enc inputs
    rfl

/-- C2: `ReverseLayerF.backward` returns, as the gradient for its single
tensor input, the elementwise negation of the incoming gradient (same batch
size, same length, each entry negated); the second returned value is
`None`. -/
theorem claim_C2_backward_negates (g : Tensor) :
    (ReverseLayerF.backward g).1.size0 = g.size0 ∧
    (ReverseLayerF.backward g).1.data.length = g.data.length ∧
    (∀ i, (ReverseLayerF.backward g).1.data.get? i =
      (g.data.get? i).map (fun v => -v)) ∧
    (ReverseLayerF.backward g).2 = none := by
  refine ⟨rfl, ?_, fun i => ?_, rfl⟩
  · simp [ReverseLayerF.backward, Tensor.neg]
  · simp [ReverseLayerF.backward, Tensor.neg, List.get?_map]

/-- C3 counterexample: the decoder built by `UNetAE.__init__` has
`skip_connections = False`, and its forward pass returns the same
`decoder_outputs` and `outputs` for two different encoder-output lists — no
stored encoder output is combined with the decoder feature maps, contrary
to the claim. -/
theorem claim_C3_counterexample :
    (UNetAE.init 1 1 1 1 0 2 idParams).decoder.skip_connections = false ∧
    ((UNetAE.init 1 1 1 1 0 2 idParams).decoder.forward
        { size0 := 1, data := [0] } [{ size0 := 1, data := [5] }]).map
        (fun r => (r.1, r.2.1)) =
      ((UNetAE.init 1 1 1 1 0 2 idParams).decoder.forward
        { size0 := 1, data := [0] } [{ size0 := 1, data := [7] }]).map
        (fun r => (r.1, r.2.1)) ∧
    ({ size0 := 1, data := [5] } : Tensor) ≠ { size0 := 1, data := [7] } := by
  refine ⟨rfl, by decide, by decide⟩

/-- C3 amended: `UNetAE.__init__` constructs its decoder with
`skip_connections=False`; in the decoder's forward pass no stored encoder
output is combined with the decoder feature maps — the pass always succeeds
and its `decoder_outputs` and `outputs` components are independent of the
`encoder_outputs` argument. -/
theorem claim_C3_amended_no_skip (ic oc fm lv : ℕ) (lam : ℚ) (s : ℕ)
    (p : BlockParams) (inputs : Tensor) (eo eo' : List Tensor) :
    (UNetAE.init ic oc fm lv lam s p).decoder.skip_connections = false ∧
    ((UNetAE.init ic oc fm lv lam s p).decoder.forward inputs eo).isSome = true ∧
    ((UNetAE.init ic oc fm lv lam s p).decoder.forward inputs eo).map
        (fun r => (r.1, r.2.1)) =
      ((UNetAE.init ic oc fm lv lam s p).decoder.forward inputs eo').map
        (fun r => (r.1, r.2.1)) := by
  have h := (UNetAE.init ic oc fm lv lam s p).decoder.forward_noskip rfl inputs eo eo'
  exact ⟨rfl, h.1, h.2⟩

/-- C5: for every forward pass of a model built by `UNetAE.__init__`, the
domain prediction is the domain classifier applied to the encoder's
gradient-reversed latent `reverse_outputs` (not to the raw input or the
decoder output), that reversed latent equals the center-block output, and
the classifier's last fully-connected layer has 2 output channels
(`fc_channels = [48, 24, 2]`). -/
theorem claim_C5_domain_classifier (ic oc fm lv : ℕ) (lam : ℚ) (s : ℕ)
    (p : BlockParams) (x : Tensor) :
    (∃ y, (UNetAE.init ic oc fm lv lam s p).forward x =
      some (y, (UNetAE.init ic oc fm lv lam s p).domain_classifier.run
        (((UNetAE.init ic oc fm lv lam s p).encoder.forward x).2.2))) ∧
    ((UNetAE.init ic oc fm lv lam s p).encoder.forward x).2.2 =
      ((UNetAE.init ic oc fm lv lam s p).encoder.forward x).2.1 ∧
    (UNetAE.init ic oc fm lv lam s p).domain_classifier.fc_channels.getLast? =
      some 2 :=
  ⟨(UNetAE.init ic oc fm lv lam s p).forward_eq rfl x, rfl, rfl⟩

/-- C9: `UNetDecoder.forward` reverses its `encoder_outputs` argument in
place: whenever the call returns, the caller-visible state of the list is
exactly the reverse of the list that was passed in (and nothing else about
the argument is changed). -/
theorem claim_C9_decoder_reverses_argument (dec : UNetDecoder)
    (inputs : Tensor) (eo : List Tensor)
    (r : List Tensor × Tensor × List Tensor)
    (h : dec.forward inputs eo = some r) :
    r.2.2 = eo.reverse := by
  rw [UNetDecoder.forward] at h
  cases hl : dec.forwardLoop eo.reverse 0 dec.levels inputs with
  | none => rw [hl] at h; simp at h
  | some v =>
    rw [hl] at h
    simp only [Option.bind_eq_bind, Option.some_bind] at h
    cases h
    rfl

/-- Witness for C9 at a concrete decoder and two-element list. -/
theorem claim_C9_witness :
    (([{ size0 := 1, data := [0] }], { size0 := 1, data := [0] },
        [{ size0 := 1, data := [3] }, { size0 := 1, data := [2] }]) :
      List Tensor × Tensor × List Tensor).2.2 =
      ([{ size0 := 1, data := [2] }, { size0 := 1, data := [3] }] :
        List Tensor).reverse :=
  claim_C9_decoder_reverses_argument m0.decoder { size0 := 1, data := [0] }
    [{ size0 := 1, data := [2] }, { size0 := 1, data := [3] }]
    ([{ size0 := 1, data := [0] }], { size0 := 1, data := [0] },
      [{ size0 := 1, data := [3] }, { size0 := 1, data := [2] }])
    (by decide)

/-- C10: `train_epoch` and `test_epoch` index the materialized target batch
list with the source-batch index; for models built by `UNetAE.__init__` the
iteration loop succeeds (the out-of-bounds access is unreachable) exactly
when the target loader yields at least as many batches as the source
loader, i.e. when every source-batch index has a paired target batch. -/
theorem claim_C10_target_indexing (ic oc fm lv : ℕ) (lam : ℚ) (s : ℕ)
    (p : BlockParams) (opt : Optimizer) (lf : Tensor → Tensor → ℚ)
    (ldf : Tensor → List ℕ → ℚ) (src tar : List Tensor) :
    ((UNetAE.trainLoop opt lf ldf tar (UNetAE.init ic oc fm lv lam s p)
        src 0).isSome = true ↔ src.length ≤ tar.length) ∧
    (((UNetAE.init ic oc fm lv lam s p).testLoop lf ldf tar
        src 0).isSome = true ↔ src.length ≤ tar.length) := by
  constructor
  · rw [UNetAE.trainLoop_isSome_iff opt lf ldf tar src
      (UNetAE.init ic oc fm lv lam s p) 0 rfl]
    simp only [Nat.zero_add]
    exact forall_lt_imp_lt_iff_le _ _
  · rw [UNetAE.testLoop_isSome_iff lf ldf tar
      (UNetAE.init ic oc fm lv lam s p) rfl src 0]
    simp only [Nat.zero_add]
    exact forall_lt_imp_lt_iff_le _ _

/-- C4: in every iteration of `train_epoch` and of `test_epoch`, the
reconstruction loss is `loss_fn(y_pred, x)` where `y_pred` is the model's
decoder output on `x` and `x` is the concatenated input batch itself — no
separate reconstruction target is used. -/
theorem claim_C4_autoencoder_loss (m : UNetAE) (opt : Optimizer)
    (lf : Tensor → Tensor → ℚ) (ldf : Tensor → List ℕ → ℚ)
    (src tar : List Tensor) (rs : List IterResult) :
    (UNetAE.trainLoop opt lf ldf tar m src 0 = some rs →
      ∀ j, j < src.length → ∃ d x_tar r fw,
        src.get? j = some d ∧ tar.get? j = some x_tar ∧ rs.get? j = some r ∧
        ((opt.step)^[j] m).forward (Tensor.cat d x_tar) = some fw ∧
        r.loss_rec = lf fw.1 (Tensor.cat d x_tar)) ∧
    (m.testLoop lf ldf tar src 0 = some rs →
      ∀ j, j < src.length → ∃ d x_tar r fw,
        src.get? j = some d ∧ tar.get? j = some x_tar ∧ rs.get? j = some r ∧
        m.forward (Tensor.cat d x_tar) = some fw ∧
        r.loss_rec = lf fw.1 (Tensor.cat d x_tar)) := by
  constructor
  · intro h j hj
    obtain ⟨hlen, hget⟩ := UNetAE.trainLoop_spec opt lf ldf tar src m 0 rs h
    obtain ⟨d, x_tar, r, h1, h2, h3, h4⟩ := hget j hj
    obtain ⟨fw, hfw, hrec, _, _⟩ := UNetAE.trainIter_spec _ lf ldf d x_tar r h4
    exact ⟨d, x_tar, r, fw, h1, by simpa using h2, h3, hfw, hrec⟩
  · intro h j hj
    obtain ⟨hlen, hget⟩ := UNetAE.testLoop_spec lf ldf tar m src 0 rs h
    obtain ⟨d, x_tar, r, h1, h2, h3, h4⟩ := hget j hj
    obtain ⟨fw, hfw, hrec, _, _⟩ := UNetAE.trainIter_spec _ lf ldf d x_tar r h4
    exact ⟨d, x_tar, r, fw, h1, by simpa using h2, h3, hfw, hrec⟩

/-- Witness for C4 on a concrete model and one-batch loaders. -/
theorem claim_C4_witness :
    ∃ d x_tar r fw,
      src0.get? 0 = some d ∧ tar0.get? 0 = some x_tar ∧
      ([{ loss_rec := 1, loss_dom := 2, loss := 1 + 0 * 2 }] :
        List IterResult).get? 0 = some r ∧
      ((opt0.step)^[0] m0).forward (Tensor.cat d x_tar) = some fw ∧
      r.loss_rec = lf0 fw.1 (Tensor.cat d x_tar) :=
  (claim_C4_autoencoder_loss m0 opt0 lf0 ldf0 src0 tar0
    [{ loss_rec := 1, loss_dom := 2, loss := 1 + 0 * 2 }]).1 rfl 0 (by decide)

/-- C6: in every iteration of `train_epoch`, the inputs from the source
loader get domain label 0 and the inputs from the target loader get domain
label 1, the label vector is concatenated source-first — matching the order
of the input batch `x = cat(x_src, x_tar)` — the domain prediction is
scored against these labels by the cross-entropy loss function, and the
resulting domain loss enters the total loss with weight `lambda_rec`. -/
theorem claim_C6_domain_labels (m : UNetAE) (opt : Optimizer)
    (lf : Tensor → Tensor → ℚ) (ldf : Tensor → List ℕ → ℚ)
    (src tar : List Tensor) (L : ℚ)
    (h : m.train_epoch opt lf ldf src tar = some L) :
    ∃ rs, UNetAE.trainLoop opt lf ldf tar m src 0 = some rs ∧
      ∀ j, j < src.length → ∃ d x_tar r fw,
        src.get? j = some d ∧ tar.get? j = some x_tar ∧ rs.get? j = some r ∧
        ((opt.step)^[j] m).forward (Tensor.cat d x_tar) = some fw ∧
        r.loss_dom = ldf fw.2
          (List.replicate d.size0 0 ++ List.replicate x_tar.size0 1) ∧
        r.loss = r.loss_rec + m.lambda_rec * r.loss_dom := by
  obtain ⟨rs, hrs, hne, hL⟩ := UNetAE.train_epoch_inv m opt lf ldf src tar L h
  refine ⟨rs, hrs, ?_⟩
  intro j hj
  obtain ⟨hlen, hget⟩ := UNetAE.trainLoop_spec opt lf ldf tar src m 0 rs hrs
  obtain ⟨d, x_tar, r, h1, h2, h3, h4⟩ := hget j hj
  obtain ⟨fw, hfw, _, hdom, hloss⟩ := UNetAE.trainIter_spec _ lf ldf d x_tar r h4
  refine ⟨d, x_tar, r, fw, h1, by simpa using h2, h3, hfw, hdom, ?_⟩
  rw [hloss, opt.iterate_lambda j m]

/-- Witness for C6 on a concrete model and one-batch loaders. -/
theorem claim_C6_witness :
    ∃ rs, UNetAE.trainLoop opt0 lf0 ldf0 tar0 m0 src0 0 = some rs ∧
      ∀ j, j < src0.length → ∃ d x_tar r fw,
        src0.get? j = some d ∧ tar0.get? j = some x_tar ∧
        rs.get? j = some r ∧
        ((opt0.step)^[j] m0).forward (Tensor.cat d x_tar) = some fw ∧
        r.loss_dom = ldf0 fw.2
          (List.replicate d.size0 0 ++ List.replicate x_tar.size0 1) ∧
        r.loss = r.loss_rec + m0.lambda_rec * r.loss_dom :=
  claim_C6_domain_labels m0 opt0 lf0 ldf0 src0 tar0 _ rfl

/-- C8: for a non-empty source loader, `train_epoch` and `test_epoch`
return the arithmetic mean over batches of the per-batch total loss, where
the per-batch total loss is `loss_rec + lambda_rec * loss_dom`; with
`lambda_rec = 0` (the constructor's default) the returned value is the mean
reconstruction loss and the domain loss contributes nothing — each
per-batch total loss then equals the reconstruction loss identically, so
the total loss function and its gradient coincide with those of the
reconstruction loss. -/
theorem claim_C8_mean_loss (m : UNetAE) (opt : Optimizer)
    (lf : Tensor → Tensor → ℚ) (ldf : Tensor → List ℕ → ℚ)
    (src tar : List Tensor) (hne : src ≠ []) :
    (∀ rs, UNetAE.trainLoop opt lf ldf tar m src 0 = some rs →
      m.train_epoch opt lf ldf src tar =
        some ((rs.map IterResult.loss).sum / (rs.length : ℚ)) ∧
      (∀ r ∈ rs, r.loss = r.loss_rec + m.lambda_rec * r.loss_dom) ∧
      (m.lambda_rec = 0 →
        m.train_epoch opt lf ldf src tar =
          some ((rs.map IterResult.loss_rec).sum / (rs.length : ℚ)) ∧
        ∀ r ∈ rs, r.loss = r.loss_rec)) ∧
    (∀ rs, m.testLoop lf ldf tar src 0 = some rs →
      m.test_epoch lf ldf src tar =
        some ((rs.map IterResult.loss).sum / (rs.length : ℚ)) ∧
      (∀ r ∈ rs, r.loss = r.loss_rec + m.lambda_rec * r.loss_dom) ∧
      (m.lambda_rec = 0 →
        m.test_epoch lf ldf src tar =
          some ((rs.map IterResult.loss_rec).sum / (rs.length : ℚ)) ∧
        ∀ r ∈ rs, r.loss = r.loss_rec)) := by
  have hsrc : src.length ≠ 0 := fun h0 => hne (List.length_eq_zero.mp h0)
  constructor
  · intro rs hrs
    obtain ⟨hlen, hget⟩ := UNetAE.trainLoop_spec opt lf ldf tar src m 0 rs hrs
    have hrsne : rs ≠ [] := fun h0 => hsrc (by rw [← hlen, h0]; rfl)
    have hperr : ∀ r ∈ rs, r.loss = r.loss_rec + m.lambda_rec * r.loss_dom := by
      intro r hr
      obtain ⟨j, hj⟩ := List.mem_iff_get?.mp hr
      have hjlt : j < src.length := by
        have := (List.get?_eq_some.mp hj).1
        omega
      obtain ⟨d, x_tar, r', h1, h2, h3, h4⟩ := hget j hjlt
      have hrr : r' = r := Option.some.inj (h3.symm.trans hj)
      obtain ⟨fw, hfw, _, _, hloss⟩ := UNetAE.trainIter_spec _ lf ldf d x_tar r' h4
      rw [← hrr, hloss, opt.iterate_lambda j m]
    have hperr0 : m.lambda_rec = 0 → ∀ r ∈ rs, r.loss = r.loss_rec := by
      intro hlam r hr
      rw [hperr r hr, hlam, zero_mul, add_zero]
    refine ⟨UNetAE.train_epoch_eq m opt lf ldf src tar rs hrs hrsne, hperr, ?_⟩
    intro hlam
    have hmap : rs.map IterResult.loss = rs.map IterResult.loss_rec :=
      List.map_congr_left (fun r hr => hperr0 hlam r hr)
    refine ⟨?_, hperr0 hlam⟩
    rw [← hmap]
    exact UNetAE.train_epoch_eq m opt lf ldf src tar rs hrs hrsne
  · intro rs hrs
    obtain ⟨hlen, hget⟩ := UNetAE.testLoop_spec lf ldf tar m src 0 rs hrs
    have hrsne : rs ≠ [] := fun h0 => hsrc (by rw [← hlen, h0]; rfl)
    have hperr : ∀ r ∈ rs, r.loss = r.loss_rec + m.lambda_rec * r.loss_dom := by
      intro r hr
      obtain ⟨j, hj⟩ := List.mem_iff_get?.mp hr
      have hjlt : j < src.length := by
        have := (List.get?_eq_some.mp hj).1
        omega
      obtain ⟨d, x_tar, r', h1, h2, h3, h4⟩ := hget j hjlt
      have hrr : r' = r := Option.some.inj (h3.symm.trans hj)
      obtain ⟨fw, hfw, _, _, hloss⟩ := UNetAE.trainIter_spec _ lf ldf d x_tar r' h4
      rw [← hrr, hloss]
    have hperr0 : m.lambda_rec = 0 → ∀ r ∈ rs, r.loss = r.loss_rec := by
      intro hlam r hr
      rw [hperr r hr, hlam, zero_mul, add_zero]
    refine ⟨UNetAE.test_epoch_eq m lf ldf src tar rs hrs hrsne, hperr, ?_⟩
    intro hlam
    have hmap : rs.map IterResult.loss = rs.map IterResult.loss_rec :=
      List.map_congr_left (fun r hr => hperr0 hlam r hr)
    refine ⟨?_, hperr0 hlam⟩
    rw [← hmap]
    exact UNetAE.test_epoch_eq m lf ldf src tar rs hrs hrsne

/-- Witness for C8 on a concrete model and one-batch loaders. -/
theorem claim_C8_witness :
    m0.train_epoch opt0 lf0 ldf0 src0 tar0 =
      some ((([{ loss_rec := 1, loss_dom := 2, loss := 1 + 0 * 2 }] :
          List IterResult).map IterResult.loss).sum /
        ((([{ loss_rec := 1, loss_dom := 2, loss := 1 + 0 * 2 }] :
          List IterResult).length : ℕ) : ℚ)) :=
  ((claim_C8_mean_loss m0 opt0 lf0 ldf0 src0 tar0 (by decide)).1
    [{ loss_rec := 1, loss_dom := 2, loss := 1 + 0 * 2 }] rfl).1

/-- C7: `train_net` runs exactly `epochs` epochs; in each epoch, in program
order, it calls `train_epoch` once, steps the learning-rate scheduler,
calls `test_epoch` exactly when `epoch % test_freq == 0`, saves the best
checkpoint exactly when the new test loss is strictly below every
previously observed test loss, and saves the regular checkpoint. -/
theorem claim_C7_train_net_schedule (epochs test_freq : ℕ) (tl : ℕ → ℚ)
    (htf : 0 < test_freq) :
    (train_net epochs test_freq tl).length = epochs ∧
    ∀ e, e < epochs →
      (train_net epochs test_freq tl).get? e =
        some ([Event.trainEp, Event.schedStep] ++
          (if e % test_freq = 0 then [Event.testEp (tl e)] else []) ++
          (if e % test_freq = 0 ∧ testedBelow test_freq tl e (tl e)
            then [Event.saveBest] else []) ++
          [Event.saveCkpt]) := by
  have hbest0 : ∀ t, belowMin none t = true ↔ testedBelow test_freq tl 0 t :=
    fun t => ⟨fun _ e' he' _ => absurd he' (Nat.not_lt_zero e'), fun _ => rfl⟩
  obtain ⟨hlen, hget⟩ := trainNetFrom_canon test_freq tl epochs 0 none hbest0
  refine ⟨hlen, fun e he => ?_⟩
  have h := hget e he
  rw [Nat.zero_add] at h
  exact h

/-- Witness for C7 with two epochs and test frequency 1. -/
theorem claim_C7_witness :
    (train_net 2 1 (fun e => (e : ℚ))).length = 2 ∧
    (train_net 2 1 (fun e => (e : ℚ))).get? 1 =
      some ([Event.trainEp, Event.schedStep] ++
        (if 1 % 1 = 0 then [Event.testEp ((1 : ℕ) : ℚ)] else []) ++
        (if 1 % 1 = 0 ∧ testedBelow 1 (fun e => (e : ℚ)) 1 ((1 : ℕ) : ℚ)
          then [Event.saveBest] else []) ++
        [Event.saveCkpt]) :=
  ⟨(claim_C7_train_net_schedule 2 1 (fun e => (e : ℚ)) (by decide)).1,
   (claim_C7_train_net_schedule 2 1 (fun e => (e : ℚ)) (by decide)).2 1 (by decide)⟩

/-- Witness for C10: with equal loader lengths the train loop succeeds. -/
theorem claim_C10_witness :
    (UNetAE.trainLoop opt0 lf0 ldf0 tar0
      (UNetAE.init 1 1 1 1 0 2 idParams) src0 0).isSome = true :=
  (claim_C10_target_indexing 1 1 1 1 0 2 idParams opt0 lf0 ldf0
    src0 tar0).1.mpr (by decide)
